import Mathlib

/-!
Verification of the discrete-event simulation kernel exercised by the
LearnSimPy notebooks (basic car process, process interaction with
interrupts, shared resources).  The kernel itself (the `simpy` library:
Environment, Event, Timeout, Process, Resource) is imported by the
notebooks but its source is not part of the repository, so it is modelled
here from the specification; the notebook client programs (the plain
`car`, the class-based `Car`, the `driver`, and the battery-charging-
station cars) are translated from the notebook sources, and the recorded
notebook outputs are the oracle for the scenario theorems.
-/

namespace SimPy

/-- Modelled from the spec: the payload values flowing through Events
(the notebooks only ever use the default `None` payload). -/
inductive Value
  | unit
  deriving DecidableEq, Repr

/-- Modelled from the spec: the outcome delivered to a resumed Process —
a success value, a distinguished interrupted signal carrying an optional
cause, or a failure. -/
inductive Outcome
  | ok (v : Value)
  | interrupted (cause : Option Value)
  | failure (e : Value)
  deriving DecidableEq, Repr

/-- Modelled from the spec: Event state, pending → triggered → processed. -/
inductive EState
  | pending
  | triggered
  | processed
  deriving DecidableEq, Repr

/-- Modelled from the spec: an Event record — state, optional fixed
outcome, and the insertion-ordered list of subscribed Processes
(callbacks); the kernel's only callback form is resuming a Process. -/
structure Event where
  state : EState
  outcome : Option Outcome
  callbacks : List Nat
  deriving DecidableEq, Repr

/-- Observation labels for the print statements of the notebook client
programs; the Environment stamps each with the current clock value. -/
inductive Label
  | park
  | drive
  | parkCharge
  | wasInterrupted
  | arriving (i : Nat)
  | startCharge (i : Nat)
  | leaving (i : Nat)
  deriving DecidableEq, Repr

/-- Modelled from the spec: what a Process can name as its next awaited
Event at a suspension point — a fresh Timeout, the completion Event of a
freshly started child Process, or a Resource request-Event. -/
inductive Await (Code : Type)
  | timeout (d : Nat)
  | child (c : Code)
  | request (r : Nat)
  deriving DecidableEq, Repr

/-- Side effects a Process performs while running between suspension
points: printing (logged with the current time), releasing a Resource
slot, and interrupting another Process. -/
inductive Action
  | log (l : Label)
  | release (r : Nat)
  | interruptT (t : Nat) (cause : Option Value)
  deriving DecidableEq, Repr

/-- Modelled from the spec: the result of driving a Process's logic one
step — it either awaits a next Event (with a continuation code), finishes
with a value, or fails. -/
inductive StepNext (Code : Type)
  | await (w : Await Code) (k : Code)
  | done (v : Value)
  | fail (e : Value)
  deriving DecidableEq, Repr

/-- One driving step of client logic: the actions performed while running,
then how the step ends. -/
structure StepRes (Code : Type) where
  acts : List Action
  next : StepNext Code
  deriving DecidableEq, Repr

/-- Modelled from the spec: Process state. -/
inductive PState
  | notStarted
  | suspended
  | finishedP
  | failedP
  deriving DecidableEq, Repr

/-- Modelled from the spec: a Process — its current logic state, kernel
state, the Event it currently awaits (if suspended), and the index of its
own completion Event (a Process is-an Event). -/
structure Proc (Code : Type) where
  code : Code
  pstate : PState
  waiting : Option Nat
  completion : Nat
  deriving DecidableEq, Repr

/-- Modelled from the spec: the defunctionalized scheduled callbacks of
the Environment queue. -/
inductive Callback
  | startProc (p : Nat)
  | fireTimeout (e : Nat)
  | processEvent (e : Nat)
  | deliverInterrupt (p : Nat) (cause : Option Value)
  | resumeWith (p : Nat) (e : Nat)
  deriving DecidableEq, Repr

/-- Modelled from the spec: a queue entry keyed by
(scheduled time, priority, insertion sequence). -/
structure QEntry where
  time : Nat
  prio : Nat
  seq : Nat
  cb : Callback
  deriving DecidableEq, Repr

/-- Modelled from the spec: a Resource — fixed capacity, current usage,
and the FIFO wait queue of pending request-Event indices. -/
structure Resource where
  capacity : Nat
  usage : Nat
  waitQueue : List Nat
  deriving DecidableEq, Repr

/-- Modelled from the spec: the Environment — virtual clock, scheduled
callback queue, insertion counter, arenas of Events / Processes /
Resources addressed by stable indices, the observation trace, and an
error flag recording protocol violations or unhandled failures. -/
structure Env (Code : Type) where
  now : Nat
  queue : List QEntry
  seqc : Nat
  events : List Event
  procs : List (Proc Code)
  resources : List Resource
  trace : List (Nat × Label)
  err : Bool
  deriving DecidableEq, Repr

/-- Default Event used for out-of-range reads of the Event arena. -/
def dummyEvent : Event := ⟨EState.processed, none, []⟩

/-- Default Resource used for out-of-range reads of the Resource arena. -/
def dummyResource : Resource := ⟨0, 0, []⟩

variable {Code : Type}

/-- Read an Event from the arena. -/
def getE (env : Env Code) (i : Nat) : Event :=
  env.events.getD i dummyEvent

/-- Write an Event back to the arena. -/
def setE (env : Env Code) (i : Nat) (ev : Event) : Env Code :=
  { env with events := env.events.set i ev }

/-- Read a Process from the arena. -/
def getProc (env : Env Code) (i : Nat) : Option (Proc Code) :=
  env.procs[i]?

/-- Write a Process back to the arena. -/
def setProc (env : Env Code) (i : Nat) (pr : Proc Code) : Env Code :=
  { env with procs := env.procs.set i pr }

/-- Read a Resource from the arena. -/
def getR (env : Env Code) (i : Nat) : Resource :=
  env.resources.getD i dummyResource

/-- Write a Resource back to the arena. -/
def setR (env : Env Code) (i : Nat) (r : Resource) : Env Code :=
  { env with resources := env.resources.set i r }

/-- Modelled from the spec: `schedule(delay, priority, callback)` —
enqueue a callback at `now + delay` keyed by (time, priority, strictly
increasing insertion counter). -/
def schedule (env : Env Code) (d prio : Nat) (cb : Callback) : Env Code :=
  { env with
    queue := env.queue ++ [⟨env.now + d, prio, env.seqc, cb⟩]
    seqc := env.seqc + 1 }

/-- Allocate a fresh pending Event; returns its index. -/
def newEvent (env : Env Code) : Nat × Env Code :=
  (env.events.length, { env with events := env.events ++ [⟨EState.pending, none, []⟩] })

/-- Modelled from the spec: `trigger(value | failure)` — pending →
triggered with the outcome fixed, scheduling the Event's processing
callback at the current time with the lowest standard priority; an error
if the Event is not pending. -/
def trigger (env : Env Code) (e : Nat) (out : Outcome) : Env Code :=
  let ev := getE env e
  if ev.state = EState.pending then
    schedule (setE env e { ev with state := EState.triggered, outcome := some out })
      0 1 (Callback.processEvent e)
  else
    { env with err := true }

/-- Modelled from the spec: `add_callback(f)` — append the subscriber if
the Event is pending or triggered-not-yet-processed; if already
processed, schedule an immediate resumption instead. -/
def addCallback (env : Env Code) (e p : Nat) : Env Code :=
  let ev := getE env e
  if ev.state = EState.processed then
    schedule env 0 1 (Callback.resumeWith p e)
  else
    setE env e { ev with callbacks := ev.callbacks ++ [p] }

/-- Modelled from the spec: `release(request)` — decrement usage; if the
wait queue is non-empty, pop its head, re-increment usage and trigger
that request-Event. -/
def releaseR (env : Env Code) (r : Nat) : Env Code :=
  let res := getR env r
  match res.waitQueue with
  | [] => setR env r { res with usage := res.usage - 1 }
  | h :: t =>
      trigger (setR env r { res with usage := res.usage - 1 + 1, waitQueue := t })
        h (Outcome.ok Value.unit)

/-- Modelled from the spec: `interrupt(cause)` — valid only on a
currently suspended target; schedules, at the current time and at a
priority higher (numerically lower) than ordinary Event processing, a
resumption of the target delivering the interrupted outcome. -/
def interruptProc (env : Env Code) (t : Nat) (cause : Option Value) : Env Code :=
  match getProc env t with
  | none => { env with err := true }
  | some pr =>
      match pr.pstate, pr.waiting with
      | PState.suspended, some _ => schedule env 0 0 (Callback.deliverInterrupt t cause)
      | _, _ => { env with err := true }

/-- Modelled from the spec: calling `interrupt()` with the cause argument
omitted defaults the cause to none. -/
def interruptNoCause (env : Env Code) (t : Nat) : Env Code :=
  interruptProc env t none

/-- Perform one client Action. -/
def doAction (env : Env Code) : Action → Env Code
  | Action.log l => { env with trace := env.trace ++ [(env.now, l)] }
  | Action.release r => releaseR env r
  | Action.interruptT t c => interruptProc env t c

/-- Perform a list of client Actions in order. -/
def doActions (env : Env Code) (acts : List Action) : Env Code :=
  acts.foldl doAction env

section Driving

variable (resumeFn : Code → Nat → Outcome → StepRes Code)

/-- Modelled from the spec: suspend Process `p` on the Event named by an
await — create a Timeout (pre-scheduled to trigger at its deadline),
start a child Process (first step scheduled at the current time), or
create a Resource request-Event (granted immediately when a slot is free,
otherwise appended to the wait queue in arrival order); in each case the
Process subscribes to the Event and records it as its current wait. -/
def setupAwait (env : Env Code) (p : Nat) (pr : Proc Code) :
    Await Code → Code → Env Code
  | Await.timeout d, k =>
      let pe := newEvent env
      let env := schedule pe.2 d 1 (Callback.fireTimeout pe.1)
      let env := addCallback env pe.1 p
      setProc env p { pr with code := k, pstate := PState.suspended, waiting := some pe.1 }
  | Await.child c, k =>
      let pe := newEvent env
      let env := pe.2
      let q := env.procs.length
      let env := { env with procs := env.procs ++ [⟨c, PState.notStarted, none, pe.1⟩] }
      let env := schedule env 0 1 (Callback.startProc q)
      let env := addCallback env pe.1 p
      setProc env p { pr with code := k, pstate := PState.suspended, waiting := some pe.1 }
  | Await.request r, k =>
      let pe := newEvent env
      let env := pe.2
      let res := getR env r
      let env :=
        if res.usage < res.capacity then
          trigger (setR env r { res with usage := res.usage + 1 }) pe.1 (Outcome.ok Value.unit)
        else
          setR env r { res with waitQueue := res.waitQueue ++ [pe.1] }
      let env := addCallback env pe.1 p
      setProc env p { pr with code := k, pstate := PState.suspended, waiting := some pe.1 }

/-- Modelled from the spec: drive Process `p` one step by handing its
logic the outcome of its last awaited Event (or the initial nothing);
the logic runs until it awaits the next Event, finishes (triggering the
Process's own Event with the return value), or fails (triggering it with
the failure); resuming a finished or failed Process is an error. -/
def resumeProc (env : Env Code) (p : Nat) (o : Outcome) : Env Code :=
  match getProc env p with
  | none => { env with err := true }
  | some pr =>
      match pr.pstate with
      | PState.finishedP => { env with err := true }
      | PState.failedP => { env with err := true }
      | _ =>
          let pr := { pr with waiting := none }
          let env := setProc env p pr
          let sr := resumeFn pr.code env.now o
          let env := doActions env sr.acts
          match sr.next with
          | StepNext.await w k => setupAwait env p pr w k
          | StepNext.done v =>
              trigger (setProc env p { pr with pstate := PState.finishedP })
                pr.completion (Outcome.ok v)
          | StepNext.fail e =>
              trigger (setProc env p { pr with pstate := PState.failedP })
                pr.completion (Outcome.failure e)

/-- Modelled from the spec: the Event's processing callback — transition
triggered → processed and resume every registered subscriber, in
registration order, with the Event's fixed outcome; a triggered failure
with no subscribers is an unhandled failure and aborts the run; running
it on a non-triggered Event is an error. -/
def processEvent (env : Env Code) (e : Nat) : Env Code :=
  let ev := getE env e
  if ev.state = EState.triggered then
    let out := ev.outcome.getD (Outcome.ok Value.unit)
    let env := setE env e { ev with state := EState.processed }
    match ev.callbacks with
    | [] =>
        match out with
        | Outcome.failure _ => { env with err := true }
        | _ => env
    | _ => ev.callbacks.foldl (fun acc p => resumeProc resumeFn acc p out) env
  else
    { env with err := true }

/-- Modelled from the spec: delivery of a scheduled interrupt — revoke
the target's subscription to its currently awaited Event and resume it
with the interrupted outcome instead of that Event's outcome. -/
def deliverInterrupt (env : Env Code) (p : Nat) (cause : Option Value) : Env Code :=
  match getProc env p with
  | none => { env with err := true }
  | some pr =>
      match pr.waiting with
      | some e =>
          let ev := getE env e
          let env := setE env e { ev with callbacks := ev.callbacks.erase p }
          resumeProc resumeFn env p (Outcome.interrupted cause)
      | none => { env with err := true }

/-- Execute one popped queue callback. -/
def exec (env : Env Code) : Callback → Env Code
  | Callback.startProc p => resumeProc resumeFn env p (Outcome.ok Value.unit)
  | Callback.fireTimeout e => trigger env e (Outcome.ok Value.unit)
  | Callback.processEvent e => processEvent resumeFn env e
  | Callback.deliverInterrupt p c => deliverInterrupt resumeFn env p c
  | Callback.resumeWith p e =>
      resumeProc resumeFn env p ((getE env e).outcome.getD (Outcome.ok Value.unit))

end Driving

/-- Lexicographic order on queue keys (time, then priority — lower runs
first, then insertion sequence). -/
def entLE (a b : QEntry) : Prop :=
  a.time < b.time ∨
    (a.time = b.time ∧ (a.prio < b.prio ∨ (a.prio = b.prio ∧ a.seq ≤ b.seq)))

instance (a b : QEntry) : Decidable (entLE a b) := by
  unfold entLE
  infer_instance

/-- Pop the minimum-keyed entry from the queue. -/
def popMin : List QEntry → Option (QEntry × List QEntry)
  | [] => none
  | a :: rest =>
      match popMin rest with
      | none => some (a, [])
      | some mr =>
          if entLE a mr.1 then some (a, rest) else some (mr.1, a :: mr.2)

section RunLoop

variable (resumeFn : Code → Nat → Outcome → StepRes Code)

/-- Modelled from the spec: the run loop — repeatedly pop the
minimum-keyed entry; with an `until` bound, stop (without advancing or
executing) as soon as the minimum entry's scheduled time reaches the
bound; otherwise advance the clock to the entry's time and execute its
callback; stop on an empty queue (natural termination) or after an
aborting error.  Fuel bounds the number of iterations. -/
def runFuel : Nat → Env Code → Option Nat → Env Code
  | 0, env, _ => env
  | Nat.succ n, env, u =>
      if env.err then env
      else
        match popMin env.queue with
        | none => env
        | some mr =>
            match u with
            | some ub =>
                if ub ≤ mr.1.time then env
                else
                  runFuel n (exec resumeFn { env with queue := mr.2, now := mr.1.time } mr.1.cb) u
            | none =>
                runFuel n (exec resumeFn { env with queue := mr.2, now := mr.1.time } mr.1.cb) none

end RunLoop

/-- Modelled from the spec: a fresh Environment with the clock at 0. -/
def emptyEnv : Env Code :=
  ⟨0, [], 0, [], [], [], [], false⟩

/-- Modelled from the spec: `process(logic)` — create a Process bound to
the given logic with a fresh completion Event and schedule its first step
at the current time; none of the logic runs synchronously. -/
def envProcess (env : Env Code) (c : Code) : Nat × Env Code :=
  let pe := newEvent env
  let env := pe.2
  let p := env.procs.length
  let env := { env with procs := env.procs ++ [⟨c, PState.notStarted, none, pe.1⟩] }
  (p, schedule env 0 1 (Callback.startProc p))

/-- Modelled from the spec: Resource construction with a capacity. -/
def mkResource (env : Env Code) (cap : Nat) : Nat × Env Code :=
  (env.resources.length, { env with resources := env.resources ++ [⟨cap, 0, []⟩] })

/-! ## Notebook client programs (translated from the notebook sources) -/

/-- Suspension-point states of the plain `car(env)` generator of the
basic-concepts notebook: `s0` is about to print parking and yield a
5-unit Timeout; `s1` is about to print driving and yield a 2-unit
Timeout. -/
inductive PCode
  | s0
  | s1
  deriving DecidableEq, Repr

/-- The plain `car(env)` generator: loop printing the parking state,
yielding `timeout(5)`, printing the driving state, yielding
`timeout(2)`. -/
def carResume : PCode → Nat → Outcome → StepRes PCode
  | PCode.s0, _, _ =>
      ⟨[Action.log Label.park], StepNext.await (Await.timeout 5) PCode.s1⟩
  | PCode.s1, _, _ =>
      ⟨[Action.log Label.drive], StepNext.await (Await.timeout 2) PCode.s0⟩

/-- Suspension-point states of the class-based `Car` (run / charge
methods) and of the `driver` generator of the interaction notebook. -/
inductive CCode
  | runStart
  | runAfterCharge
  | chargeStart (d : Nat)
  | chargeEnd
  | driverStart (t : Nat)
  | driverWaited (t : Nat)
  deriving DecidableEq, Repr

/-- The waiting-variant `Car.run` / `Car.charge` of the interaction
notebook (no try/except): run prints parking-and-charging, starts a
`charge(5)` child Process and yields it, then prints driving and yields
`timeout(2)`; charge yields `timeout(duration)` and returns.  An
interrupt, never delivered in this scenario, would propagate uncaught and
fail the Process. -/
def carWaitResume : CCode → Nat → Outcome → StepRes CCode
  | CCode.runStart, _, _ =>
      ⟨[Action.log Label.parkCharge],
        StepNext.await (Await.child (CCode.chargeStart 5)) CCode.runAfterCharge⟩
  | CCode.runAfterCharge, _, o =>
      match o with
      | Outcome.interrupted _ => ⟨[], StepNext.fail Value.unit⟩
      | _ => ⟨[Action.log Label.drive], StepNext.await (Await.timeout 2) CCode.runStart⟩
  | CCode.chargeStart d, _, _ => ⟨[], StepNext.await (Await.timeout d) CCode.chargeEnd⟩
  | CCode.chargeEnd, _, _ => ⟨[], StepNext.done Value.unit⟩
  | CCode.driverStart t, _, _ => ⟨[], StepNext.await (Await.timeout 3) (CCode.driverWaited t)⟩
  | CCode.driverWaited t, _, _ => ⟨[Action.interruptT t none], StepNext.done Value.unit⟩

/-- The interrupt-variant `Car.run` of the interaction notebook: like the
waiting variant, but the yield of the charge child sits in a try/except
that catches the Interrupt, prints the was-interrupted message, and falls
through to the driving state; plus the `driver(env, car)` generator that
yields `timeout(3)` and then calls `car.action.interrupt()`. -/
def carInterruptResume : CCode → Nat → Outcome → StepRes CCode
  | CCode.runStart, _, _ =>
      ⟨[Action.log Label.parkCharge],
        StepNext.await (Await.child (CCode.chargeStart 5)) CCode.runAfterCharge⟩
  | CCode.runAfterCharge, _, o =>
      match o with
      | Outcome.interrupted _ =>
          ⟨[Action.log Label.wasInterrupted, Action.log Label.drive],
            StepNext.await (Await.timeout 2) CCode.runStart⟩
      | _ => ⟨[Action.log Label.drive], StepNext.await (Await.timeout 2) CCode.runStart⟩
  | CCode.chargeStart d, _, _ => ⟨[], StepNext.await (Await.timeout d) CCode.chargeEnd⟩
  | CCode.chargeEnd, _, _ => ⟨[], StepNext.done Value.unit⟩
  | CCode.driverStart t, _, _ => ⟨[], StepNext.await (Await.timeout 3) (CCode.driverWaited t)⟩
  | CCode.driverWaited t, _, _ => ⟨[Action.interruptT t none], StepNext.done Value.unit⟩

/-- Suspension-point states of the battery-charging-station
`car(env, name, bcs, driving_time, charge_duration)` generator of the
shared-resources notebook, for car index `i`. -/
inductive RCode
  | start (i dt : Nat)
  | arrived (i : Nat)
  | granted (i : Nat)
  | charged (i : Nat)
  deriving DecidableEq, Repr

/-- The battery-charging-station car: yield `timeout(driving_time)`,
print the arrival, request a charging spot (resource 0), print the start
of charging once granted, yield `timeout(5)`, print the departure and
release the spot on the way out of the with-block. -/
def bcsResume : RCode → Nat → Outcome → StepRes RCode
  | RCode.start i dt, _, _ =>
      ⟨[], StepNext.await (Await.timeout dt) (RCode.arrived i)⟩
  | RCode.arrived i, _, _ =>
      ⟨[Action.log (Label.arriving i)], StepNext.await (Await.request 0) (RCode.granted i)⟩
  | RCode.granted i, _, _ =>
      ⟨[Action.log (Label.startCharge i)], StepNext.await (Await.timeout 5) (RCode.charged i)⟩
  | RCode.charged i, _, _ =>
      ⟨[Action.log (Label.leaving i), Action.release 0], StepNext.done Value.unit⟩

/-! ## Scenario environments and runs -/

/-- Basic-concepts scenario: one plain car registered at time 0. -/
def basicEnv : Env PCode :=
  (envProcess emptyEnv PCode.s0).2

/-- `env.run(until=15)` of the basic-concepts notebook. -/
def basicRun : Env PCode :=
  runFuel carResume 100 basicEnv (some 15)

/-- Waiting-variant scenario of the interaction notebook: one class-based
Car, no driver. -/
def waitEnv : Env CCode :=
  (envProcess emptyEnv CCode.runStart).2

/-- `env.run(until=15)` of the waiting-variant interaction scenario. -/
def waitRun : Env CCode :=
  runFuel carWaitResume 100 waitEnv (some 15)

/-- Interrupt scenario of the interaction notebook: the Car (Process 0)
is registered first, then the driver targeting it. -/
def interruptEnv : Env CCode :=
  (envProcess (envProcess emptyEnv CCode.runStart).2 (CCode.driverStart 0)).2

/-- `env.run(until=15)` of the interrupt scenario. -/
def interruptRun : Env CCode :=
  runFuel carInterruptResume 100 interruptEnv (some 15)

/-- Shared-resources scenario: a charging station of capacity 2
(resource 0) and four cars with driving times 0, 2, 4, 6. -/
def bcsEnv : Env RCode :=
  let env := (mkResource (emptyEnv : Env RCode) 2).2
  let env := (envProcess env (RCode.start 0 0)).2
  let env := (envProcess env (RCode.start 1 2)).2
  let env := (envProcess env (RCode.start 2 4)).2
  (envProcess env (RCode.start 3 6)).2

/-- `env.run()` (no until) of the shared-resources notebook. -/
def bcsRun : Env RCode :=
  runFuel bcsResume 100 bcsEnv none

/-! ## Invariants -/

/-- Every queued entry is scheduled at or after the current clock value. -/
def QInv (env : Env Code) : Prop :=
  ∀ q ∈ env.queue, env.now ≤ q.time

instance (env : Env Code) : Decidable (QInv env) := by
  unfold QInv
  exact List.decidableBAll _ _

/-- Well-formedness of one Resource: usage never exceeds capacity, the
capacity is at least one, and a non-empty wait queue implies the Resource
is full — so an immediate grant can never overtake a queued request. -/
def ResOk (r : Resource) : Prop :=
  r.usage ≤ r.capacity ∧ 1 ≤ r.capacity ∧ (r.waitQueue = [] ∨ r.capacity ≤ r.usage)

instance (r : Resource) : Decidable (ResOk r) := by
  unfold ResOk
  infer_instance

/-- All Resources of the Environment are well-formed. -/
def RInv (env : Env Code) : Prop :=
  ∀ r ∈ env.resources, ResOk r

instance (env : Env Code) : Decidable (RInv env) := by
  unfold RInv
  exact List.decidableBAll _ _

/-- One kernel step from `a` to `b` keeps the clock unchanged and
preserves both the queue and the Resource invariants. -/
def StepPres (a b : Env Code) : Prop :=
  b.now = a.now ∧ (QInv a → QInv b) ∧ (RInv a → RInv b)

/-! ## Small concrete instances used to exercise general theorems -/

/-- Trivial client logic that immediately finishes. -/
def unitResume : Unit → Nat → Outcome → StepRes Unit :=
  fun _ _ _ => ⟨[], StepNext.done Value.unit⟩

/-- A tiny Environment holding one already-triggered Event. -/
def envOneTriggered : Env Unit :=
  { (emptyEnv : Env Unit) with
    events := [⟨EState.triggered, some (Outcome.ok Value.unit), [0]⟩] }

/-- A tiny Environment holding one pending Event. -/
def envOnePending : Env Unit :=
  { (emptyEnv : Env Unit) with events := [⟨EState.pending, none, []⟩] }

/-- A tiny Environment with one suspended Process awaiting Event 0. -/
def envOneSuspended : Env Unit :=
  { (emptyEnv : Env Unit) with
    events := [⟨EState.pending, none, [0]⟩]
    procs := [⟨(), PState.suspended, some 0, 0⟩] }

/-- A tiny Environment with one full Resource whose wait queue holds
Event 0. -/
def envOneResource : Env Unit :=
  { (emptyEnv : Env Unit) with
    events := [⟨EState.pending, none, []⟩]
    resources := [⟨1, 1, [0]⟩] }

/-! ## Queue-order lemmas -/

theorem entLE_time {a b : QEntry} (h : entLE a b) : a.time ≤ b.time := by
  rcases h with h | ⟨h, _⟩
  · exact Nat.le_of_lt h
  · exact Nat.le_of_eq h

theorem time_of_not_entLE {a b : QEntry} (h : ¬ entLE a b) : b.time ≤ a.time := by
  by_contra hc
  exact h (Or.inl (Nat.lt_of_not_le hc))

theorem popMin_cons_ne_none {a : QEntry} {rest : List QEntry} :
    popMin (a :: rest) ≠ none := by
  rw [popMin]
  cases popMin rest with
  | none => simp
  | some mr => by_cases h : entLE a mr.1 <;> simp [h]

theorem popMin_self_mem : ∀ {q : List QEntry} {mr},
    popMin q = some mr → mr.1 ∈ q := by
  intro q
  induction q with
  | nil => intro mr h; simp [popMin] at h
  | cons a rest ih =>
      intro mr h
      rw [popMin] at h
      cases hrest : popMin rest with
      | none =>
          rw [hrest] at h
          cases h
          exact List.mem_cons_self a rest
      | some mr2 =>
          rw [hrest] at h
          dsimp only at h
          by_cases hle : entLE a mr2.1
          · rw [if_pos hle] at h
            cases h
            exact List.mem_cons_self a rest
          · rw [if_neg hle] at h
            cases h
            show mr2.1 ∈ a :: rest
            exact List.mem_cons_of_mem a (ih hrest)

theorem popMin_cover : ∀ {q : List QEntry} {mr},
    popMin q = some mr → ∀ x ∈ q, x = mr.1 ∨ x ∈ mr.2 := by
  intro q
  induction q with
  | nil => intro mr h; simp [popMin] at h
  | cons a rest ih =>
      intro mr h x hx
      rw [popMin] at h
      cases hrest : popMin rest with
      | none =>
          rw [hrest] at h
          cases h
          rcases List.mem_cons.1 hx with h1 | h1
          · exact Or.inl h1
          · cases rest with
            | nil => simp at h1
            | cons b bs => exact absurd hrest popMin_cons_ne_none
      | some mr2 =>
          rw [hrest] at h
          dsimp only at h
          by_cases hle : entLE a mr2.1
          · rw [if_pos hle] at h
            cases h
            exact List.mem_cons.1 hx
          · rw [if_neg hle] at h
            cases h
            rcases List.mem_cons.1 hx with h1 | h1
            · exact Or.inr (List.mem_cons.2 (Or.inl h1))
            · rcases ih hrest x h1 with h2 | h2
              · exact Or.inl h2
              · exact Or.inr (List.mem_cons.2 (Or.inr h2))

theorem popMin_min : ∀ {q : List QEntry} {mr},
    popMin q = some mr → ∀ x ∈ mr.2, mr.1.time ≤ x.time := by
  intro q
  induction q with
  | nil => intro mr h; simp [popMin] at h
  | cons a rest ih =>
      intro mr h x hx
      rw [popMin] at h
      cases hrest : popMin rest with
      | none =>
          rw [hrest] at h
          cases h
          simp at hx
      | some mr2 =>
          rw [hrest] at h
          dsimp only at h
          by_cases hle : entLE a mr2.1
          · rw [if_pos hle] at h
            cases h
            rcases popMin_cover hrest x hx with h1 | h1
            · exact h1 ▸ entLE_time hle
            · exact Nat.le_trans (entLE_time hle) (ih hrest x h1)
          · rw [if_neg hle] at h
            cases h
            show mr2.1.time ≤ x.time
            rcases List.mem_cons.1 (show x ∈ a :: mr2.2 from hx) with h1 | h1
            · exact h1 ▸ time_of_not_entLE hle
            · exact ih hrest x h1

/-! ## Preservation of the clock and the invariants by every kernel
operation -/

theorem stepPres_id (env : Env Code) : StepPres env env :=
  ⟨rfl, id, id⟩

theorem stepPres_trans {a b c : Env Code} (h1 : StepPres a b) (h2 : StepPres b c) :
    StepPres a c :=
  ⟨h2.1.trans h1.1, fun h => h2.2.1 (h1.2.1 h), fun h => h2.2.2 (h1.2.2 h)⟩

theorem stepPres_of_eq {a b : Env Code} (hn : b.now = a.now) (hq : b.queue = a.queue)
    (hr : b.resources = a.resources) : StepPres a b := by
  refine ⟨hn, fun h x hx => ?_, fun h r hrm => ?_⟩
  · rw [hn]
    exact h x (hq ▸ hx)
  · exact h r (hr ▸ hrm)

theorem stepPres_setE (env : Env Code) (i : Nat) (ev : Event) :
    StepPres env (setE env i ev) :=
  stepPres_of_eq rfl rfl rfl

theorem stepPres_setProc (env : Env Code) (i : Nat) (pr : Proc Code) :
    StepPres env (setProc env i pr) :=
  stepPres_of_eq rfl rfl rfl

theorem stepPres_err (env : Env Code) : StepPres env { env with err := true } :=
  stepPres_of_eq rfl rfl rfl

theorem stepPres_newEvent (env : Env Code) : StepPres env (newEvent env).2 :=
  stepPres_of_eq rfl rfl rfl

theorem stepPres_schedule (env : Env Code) (d p : Nat) (cb : Callback) :
    StepPres env (schedule env d p cb) := by
  refine ⟨rfl, fun h x hx => ?_, fun h r hrm => h r hrm⟩
  rcases List.mem_append.1 hx with h1 | h1
  · exact h x h1
  · rcases List.mem_singleton.1 h1 with rfl
    exact Nat.le_add_right env.now d

theorem stepPres_trigger (env : Env Code) (e : Nat) (out : Outcome) :
    StepPres env (trigger env e out) := by
  unfold trigger
  by_cases h : (getE env e).state = EState.pending
  · rw [if_pos h]
    exact stepPres_trans (stepPres_setE env e _) (stepPres_schedule _ 0 1 _)
  · rw [if_neg h]
    exact stepPres_err env

theorem stepPres_addCallback (env : Env Code) (e p : Nat) :
    StepPres env (addCallback env e p) := by
  unfold addCallback
  by_cases h : (getE env e).state = EState.processed
  · rw [if_pos h]
    exact stepPres_schedule env 0 1 _
  · rw [if_neg h]
    exact stepPres_setE env e _

theorem getR_eq_getElem {env : Env Code} {r : Nat} (h : r < env.resources.length) :
    getR env r = env.resources[r] := by
  unfold getR
  simp [List.getD_eq_getElem?_getD, List.getElem?_eq_getElem h]

theorem getR_mem {env : Env Code} {r : Nat} (h : r < env.resources.length) :
    getR env r ∈ env.resources := by
  rw [getR_eq_getElem h]
  exact List.getElem_mem h

theorem rinv_setR {env : Env Code} {r : Nat} {res : Resource}
    (h : RInv env) (hok : ResOk res) : RInv (setR env r res) := by
  intro s hs
  rcases List.mem_or_eq_of_mem_set hs with h1 | h1
  · exact h s h1
  · exact h1 ▸ hok

theorem resources_setR_of_ge {env : Env Code} {r : Nat} (res : Resource)
    (h : env.resources.length ≤ r) : (setR env r res).resources = env.resources := by
  unfold setR
  exact List.set_eq_of_length_le h

theorem stepPres_releaseR (env : Env Code) (r : Nat) :
    StepPres env (releaseR env r) := by
  simp only [releaseR]
  cases hw : (getR env r).waitQueue with
  | nil =>
      by_cases hlen : env.resources.length ≤ r
      · exact stepPres_of_eq rfl rfl (resources_setR_of_ge _ hlen)
      · push_neg at hlen
        refine ⟨rfl, fun h => h, fun h => rinv_setR h ?_⟩
        have hok := h _ (getR_mem hlen)
        exact ⟨Nat.le_trans (Nat.sub_le _ _) hok.1, hok.2.1, Or.inl rfl⟩
  | cons hd t =>
      refine stepPres_trans (show StepPres env (setR env r
          ⟨(getR env r).capacity, (getR env r).usage - 1 + 1, t⟩) from ?_)
        (stepPres_trigger _ hd (Outcome.ok Value.unit))
      by_cases hlen : env.resources.length ≤ r
      · exact stepPres_of_eq rfl rfl (resources_setR_of_ge _ hlen)
      · push_neg at hlen
        refine ⟨rfl, fun h => h, fun h => rinv_setR h ?_⟩
        have hok := h _ (getR_mem hlen)
        have hfull : (getR env r).capacity ≤ (getR env r).usage := by
          rcases hok.2.2 with h1 | h1
          · rw [hw] at h1; cases h1
          · exact h1
        have hpos : 1 ≤ (getR env r).usage := Nat.le_trans hok.2.1 hfull
        have heq : (getR env r).usage - 1 + 1 = (getR env r).usage :=
          Nat.sub_add_cancel hpos
        exact ⟨heq ▸ hok.1, hok.2.1, Or.inr (heq ▸ hfull)⟩

theorem stepPres_interruptProc (env : Env Code) (t : Nat) (c : Option Value) :
    StepPres env (interruptProc env t c) := by
  unfold interruptProc
  split
  · exact stepPres_err env
  · split
    · exact stepPres_schedule env 0 0 _
    · exact stepPres_err env

theorem stepPres_doAction (env : Env Code) (a : Action) :
    StepPres env (doAction env a) := by
  cases a with
  | log l => exact stepPres_of_eq rfl rfl rfl
  | release r => exact stepPres_releaseR env r
  | interruptT t c => exact stepPres_interruptProc env t c

theorem stepPres_foldl {α : Type} {g : Env Code → α → Env Code}
    (hg : ∀ e x, StepPres e (g e x)) (l : List α) :
    ∀ env : Env Code, StepPres env (l.foldl g env) := by
  induction l with
  | nil => intro env; exact stepPres_id env
  | cons a as ih => intro env; exact stepPres_trans (hg env a) (ih (g env a))

theorem stepPres_doActions (env : Env Code) (acts : List Action) :
    StepPres env (doActions env acts) :=
  stepPres_foldl stepPres_doAction acts env

theorem stepPres_setupAwait
    (env : Env Code) (p : Nat) (pr : Proc Code) (w : Await Code) (k : Code) :
    StepPres env (setupAwait env p pr w k) := by
  cases w with
  | timeout d =>
      exact stepPres_trans (stepPres_newEvent env)
        (stepPres_trans (stepPres_schedule _ d 1 _)
          (stepPres_trans (stepPres_addCallback _ _ p) (stepPres_setProc _ p _)))
  | child c =>
      refine stepPres_trans (show StepPres env { (newEvent env).2 with
          procs := (newEvent env).2.procs
            ++ [⟨c, PState.notStarted, none, (newEvent env).1⟩] } from
          stepPres_of_eq rfl rfl rfl) ?_
      exact stepPres_trans (stepPres_schedule _ 0 1 _)
        (stepPres_trans (stepPres_addCallback _ _ p) (stepPres_setProc _ p _))
  | request r =>
      simp only [setupAwait]
      by_cases hfree : (getR (newEvent env).2 r).usage < (getR (newEvent env).2 r).capacity
      · rw [if_pos hfree]
        have hlen : r < (newEvent env).2.resources.length := by
          by_contra hc
          push_neg at hc
          have hdum : getR (newEvent env).2 r = dummyResource := by
            unfold getR
            rw [List.getD_eq_getElem?_getD, List.getElem?_eq_none hc]
            rfl
          rw [hdum] at hfree
          exact Nat.lt_irrefl 0 hfree
        refine stepPres_trans (stepPres_newEvent env)
          (stepPres_trans (show StepPres (newEvent env).2 (setR (newEvent env).2 r
              { getR (newEvent env).2 r with
                usage := (getR (newEvent env).2 r).usage + 1 }) from
              ⟨rfl, fun h => h, fun h => rinv_setR h ?_⟩)
            (stepPres_trans (stepPres_trigger _ _ _)
              (stepPres_trans (stepPres_addCallback _ _ p) (stepPres_setProc _ p _))))
        have hok := h _ (getR_mem hlen)
        refine ⟨hfree, hok.2.1, ?_⟩
        rcases hok.2.2 with h1 | h1
        · exact Or.inl h1
        · exact absurd (Nat.lt_of_lt_of_le hfree h1) (Nat.lt_irrefl _)
      · rw [if_neg hfree]
        refine stepPres_trans (stepPres_newEvent env)
          (stepPres_trans (show StepPres (newEvent env).2 (setR (newEvent env).2 r
              { getR (newEvent env).2 r with
                waitQueue := (getR (newEvent env).2 r).waitQueue
                  ++ [(newEvent env).1] }) from
              ⟨rfl, fun h => h, fun h => ?_⟩)
            (stepPres_trans (stepPres_addCallback _ _ p) (stepPres_setProc _ p _)))
        by_cases hlen : r < (newEvent env).2.resources.length
        · refine rinv_setR h ?_
          have hok := h _ (getR_mem hlen)
          exact ⟨hok.1, hok.2.1, Or.inr (Nat.le_of_not_lt hfree)⟩
        · push_neg at hlen
          unfold setR
          rw [List.set_eq_of_length_le hlen]
          exact h

theorem stepPres_resumeProc (f : Code → Nat → Outcome → StepRes Code)
    (env : Env Code) (p : Nat) (o : Outcome) :
    StepPres env (resumeProc f env p o) := by
  unfold resumeProc
  split
  · exact stepPres_err env
  · split
    · exact stepPres_err env
    · exact stepPres_err env
    · dsimp only
      split
      · exact stepPres_trans (stepPres_setProc _ _ _)
          (stepPres_trans (stepPres_doActions _ _) (stepPres_setupAwait _ _ _ _ _))
      · exact stepPres_trans (stepPres_setProc _ _ _)
          (stepPres_trans (stepPres_doActions _ _)
            (stepPres_trans (stepPres_setProc _ _ _) (stepPres_trigger _ _ _)))
      · exact stepPres_trans (stepPres_setProc _ _ _)
          (stepPres_trans (stepPres_doActions _ _)
            (stepPres_trans (stepPres_setProc _ _ _) (stepPres_trigger _ _ _)))

theorem stepPres_processEvent (f : Code → Nat → Outcome → StepRes Code)
    (env : Env Code) (e : Nat) :
    StepPres env (processEvent f env e) := by
  unfold processEvent
  dsimp only
  split
  · split
    · split
      · exact stepPres_trans (stepPres_setE _ _ _) (stepPres_err _)
      · exact stepPres_setE _ _ _
    · exact stepPres_trans (stepPres_setE _ _ _)
        (stepPres_foldl (fun acc x => stepPres_resumeProc f acc x _) _ _)
  · exact stepPres_err env

theorem stepPres_deliverInterrupt (f : Code → Nat → Outcome → StepRes Code)
    (env : Env Code) (p : Nat) (c : Option Value) :
    StepPres env (deliverInterrupt f env p c) := by
  unfold deliverInterrupt
  split
  · exact stepPres_err env
  · split
    · exact stepPres_trans (stepPres_setE _ _ _) (stepPres_resumeProc f _ _ _)
    · exact stepPres_err env

theorem stepPres_exec (f : Code → Nat → Outcome → StepRes Code)
    (env : Env Code) (cb : Callback) :
    StepPres env (exec f env cb) := by
  unfold exec
  split
  · exact stepPres_resumeProc f env _ _
  · exact stepPres_trigger env _ _
  · exact stepPres_processEvent f env _
  · exact stepPres_deliverInterrupt f env _ _
  · exact stepPres_resumeProc f env _ _

/-! ## Run-loop invariants -/

theorem rinv_runFuel (f : Code → Nat → Outcome → StepRes Code) (u : Option Nat) :
    ∀ (n : Nat) (env : Env Code), RInv env → RInv (runFuel f n env u) := by
  intro n
  induction n with
  | zero => intro env h; exact h
  | succ n ih =>
      intro env h
      rw [runFuel]
      split
      · exact h
      · cases hpop : popMin env.queue with
        | none => exact h
        | some mr =>
            dsimp only
            cases u with
            | none => exact ih _ ((stepPres_exec f _ _).2.2 h)
            | some ub =>
                dsimp only
                split
                · exact h
                · exact ih _ ((stepPres_exec f _ _).2.2 h)

theorem qinv_now_runFuel (f : Code → Nat → Outcome → StepRes Code) (u : Option Nat) :
    ∀ (n : Nat) (env : Env Code), QInv env →
      QInv (runFuel f n env u) ∧ env.now ≤ (runFuel f n env u).now := by
  intro n
  induction n with
  | zero => intro env h; exact ⟨h, Nat.le_refl _⟩
  | succ n ih =>
      intro env h
      rw [runFuel]
      split
      · exact ⟨h, Nat.le_refl _⟩
      · cases hpop : popMin env.queue with
        | none => exact ⟨h, Nat.le_refl _⟩
        | some mr =>
            dsimp only
            have hq1 : QInv { env with queue := mr.2, now := mr.1.time } := by
              intro x hx
              exact popMin_min hpop x hx
            have hstep := stepPres_exec f { env with queue := mr.2, now := mr.1.time } mr.1.cb
            have hnow : env.now ≤ mr.1.time := h mr.1 (popMin_self_mem hpop)
            cases u with
            | none =>
                have hrec := ih _ (hstep.2.1 hq1)
                refine ⟨hrec.1, Nat.le_trans hnow ?_⟩
                calc mr.1.time
                    = (exec f { env with queue := mr.2, now := mr.1.time } mr.1.cb).now :=
                      hstep.1.symm
                  _ ≤ _ := hrec.2
            | some ub =>
                dsimp only
                split
                · exact ⟨h, Nat.le_refl _⟩
                · have hrec := ih _ (hstep.2.1 hq1)
                  refine ⟨hrec.1, Nat.le_trans hnow ?_⟩
                  calc mr.1.time
                      = (exec f { env with queue := mr.2, now := mr.1.time } mr.1.cb).now :=
                        hstep.1.symm
                    _ ≤ _ := hrec.2

theorem now_lt_runFuel (f : Code → Nat → Outcome → StepRes Code) (ub : Nat) :
    ∀ (n : Nat) (env : Env Code), env.now < ub →
      (runFuel f n env (some ub)).now < ub := by
  intro n
  induction n with
  | zero => intro env h; exact h
  | succ n ih =>
      intro env h
      rw [runFuel]
      split
      · exact h
      · cases hpop : popMin env.queue with
        | none => exact h
        | some mr =>
            dsimp only
            split
            · exact h
            · rename_i hlt
              apply ih
              rw [(stepPres_exec f _ _).1]
              exact Nat.lt_of_not_le hlt

/-! ## Pointwise lemmas about Event operations -/

theorem getE_setE_self {env : Env Code} {i : Nat} (h : i < env.events.length)
    (ev : Event) : getE (setE env i ev) i = ev := by
  unfold getE setE
  simp only [List.getD_eq_getElem?_getD, List.getElem?_set_self h, Option.getD_some]

theorem getE_newEvent_self (env : Env Code) :
    getE (newEvent env).2 (newEvent env).1 = ⟨EState.pending, none, []⟩ := by
  unfold getE newEvent
  simp only [List.getD_eq_getElem?_getD, List.getElem?_concat_length, Option.getD_some]

theorem trigger_err_of_not_pending {env : Env Code} {e : Nat}
    (h : ¬ (getE env e).state = EState.pending) (out : Outcome) :
    trigger env e out = { env with err := true } := by
  unfold trigger
  dsimp only
  rw [if_neg h]

theorem getE_trigger_self {env : Env Code} {e : Nat} (h : e < env.events.length)
    (hp : (getE env e).state = EState.pending) (out : Outcome) :
    getE (trigger env e out) e
      = { getE env e with state := EState.triggered, outcome := some out } := by
  unfold trigger
  dsimp only
  rw [if_pos hp]
  exact getE_setE_self h _

theorem trigger_twice_err {env : Env Code} {e : Nat} (h : e < env.events.length)
    (hp : (getE env e).state = EState.pending) (out out2 : Outcome) :
    trigger (trigger env e out) e out2 = { trigger env e out with err := true } := by
  apply trigger_err_of_not_pending
  rw [getE_trigger_self h hp out]
  dsimp only
  decide

theorem addCallback_eq_of_not_processed {env : Env Code} {e p : Nat}
    (h : ¬ (getE env e).state = EState.processed) :
    addCallback env e p
      = setE env e { getE env e with callbacks := (getE env e).callbacks ++ [p] } := by
  unfold addCallback
  dsimp only
  rw [if_neg h]

theorem processEvent_foldl {f : Code → Nat → Outcome → StepRes Code}
    {env : Env Code} {e : Nat} (ht : (getE env e).state = EState.triggered)
    (hc : (getE env e).callbacks ≠ []) :
    processEvent f env e
      = (getE env e).callbacks.foldl
          (fun acc p => resumeProc f acc p ((getE env e).outcome.getD (Outcome.ok Value.unit)))
          (setE env e { getE env e with state := EState.processed }) := by
  unfold processEvent
  dsimp only
  rw [if_pos ht]
  cases hcb : (getE env e).callbacks with
  | nil => exact absurd hcb hc
  | cons a as => rfl

theorem processEvent_err_of_not_triggered {f : Code → Nat → Outcome → StepRes Code}
    {env : Env Code} {e : Nat} (h : ¬ (getE env e).state = EState.triggered) :
    processEvent f env e = { env with err := true } := by
  unfold processEvent
  dsimp only
  rw [if_neg h]

theorem resources_setProc (env : Env Code) (i : Nat) (pr : Proc Code) :
    (setProc env i pr).resources = env.resources := rfl

theorem resources_addCallback (env : Env Code) (e p : Nat) :
    (addCallback env e p).resources = env.resources := by
  unfold addCallback
  dsimp only
  split <;> rfl

/-! ## Claim theorems -/

/-- C1: in the interrupted-charging scenario (charge of 5 started at 0,
interrupt delivered at 3), the Car resumes at 3 observing the interrupt,
drives 2 units (next charge starts at 5), and `run(until=15)` observes
state changes exactly at 0 (charge start), 3 (interrupted, drive start),
5 (charge start), 10 (drive start) and 12 (charge start). -/
theorem C1_interrupted_charging_instants :
    interruptRun.trace =
      [(0, Label.parkCharge), (3, Label.wasInterrupted), (3, Label.drive),
       (5, Label.parkCharge), (10, Label.drive), (12, Label.parkCharge)] := by
  decide

/-- C2: the plain alternating 5/2 car observes transitions exactly at
0, 5, 7, 12, 14 under `run(until=15)`; the transition scheduled at 19
stays in the queue unexecuted; the final clock is 14; and in general the
clock of a bounded run never reaches the bound. -/
theorem C2_until_boundary :
    basicRun.trace = [(0, Label.park), (5, Label.drive), (7, Label.park),
      (12, Label.drive), (14, Label.park)] ∧
    basicRun.now = 14 ∧
    basicRun.queue.map QEntry.time = [19] ∧
    (∀ (Code : Type) (f : Code → Nat → Outcome → StepRes Code) (ub n : Nat)
        (env : Env Code), env.now < ub → (runFuel f n env (some ub)).now < ub) :=
  ⟨by decide, by decide, by decide, fun _ f ub n env h => now_lt_runFuel f ub n env h⟩

/-- Witness for C2: the concrete bounded run stays below the bound. -/
theorem C2_until_boundary_witness :
    basicEnv.now < 15 ∧ (runFuel carResume 100 basicEnv (some 15)).now < 15 :=
  ⟨by decide, C2_until_boundary.2.2.2 PCode carResume 15 100 basicEnv (by decide)⟩

/-- C3: in the battery-charging-station scenario (capacity 2, arrivals at
0, 2, 4, 6, each holding a spot 5 units) Car 0 is granted at 0, Car 1 at
2, Car 2 queues at 4 and is granted at 5 when Car 0 releases, Car 3
queues at 6 and is granted at 7 when Car 1 releases, all four finish by
12, and `run()` with no bound terminates naturally with an empty queue
(one more fuel step changes nothing). -/
theorem C3_resource_contention :
    bcsRun.trace =
      [(0, Label.arriving 0), (0, Label.startCharge 0), (2, Label.arriving 1),
       (2, Label.startCharge 1), (4, Label.arriving 2), (5, Label.leaving 0),
       (5, Label.startCharge 2), (6, Label.arriving 3), (7, Label.leaving 1),
       (7, Label.startCharge 3), (10, Label.leaving 2), (12, Label.leaving 3)] ∧
    bcsRun.queue = [] ∧ bcsRun.err = false ∧
    runFuel bcsResume 101 bcsEnv none = bcsRun :=
  ⟨by decide, by decide, by decide, by decide⟩

/-- C4: Resource usage never exceeds capacity along any run (a request is
granted only when a slot is free), a release grants exactly the head of
the wait queue, a request finding the Resource full is appended at the
tail of the wait queue and not triggered, and a request finding a free
slot increments usage and triggers the fresh request-Event immediately;
together with the `ResOk` invariant (non-empty wait queue implies a full
Resource) grants follow request order with no overtaking. -/
theorem C4_resource_capacity_and_fifo :
    (∀ (Code : Type) (f : Code → Nat → Outcome → StepRes Code) (u : Option Nat)
        (n : Nat) (env : Env Code), RInv env → RInv (runFuel f n env u)) ∧
    (∀ (Code : Type) (env : Env Code) (r hd : Nat) (t : List Nat),
        (getR env r).waitQueue = hd :: t →
        releaseR env r
          = trigger (setR env r
              ⟨(getR env r).capacity, (getR env r).usage - 1 + 1, t⟩) hd
              (Outcome.ok Value.unit)) ∧
    (∀ (Code : Type) (env : Env Code) (p : Nat) (pr : Proc Code) (r : Nat) (k : Code),
        ¬ (getR env r).usage < (getR env r).capacity →
        (setupAwait env p pr (Await.request r) k).resources
          = env.resources.set r
              ⟨(getR env r).capacity, (getR env r).usage,
               (getR env r).waitQueue ++ [env.events.length]⟩) ∧
    (∀ (Code : Type) (env : Env Code) (p : Nat) (pr : Proc Code) (r : Nat) (k : Code),
        (getR env r).usage < (getR env r).capacity →
        setupAwait env p pr (Await.request r) k
          = setProc (addCallback
              (trigger (setR (newEvent env).2 r
                  ⟨(getR env r).capacity, (getR env r).usage + 1, (getR env r).waitQueue⟩)
                (newEvent env).1 (Outcome.ok Value.unit))
              (newEvent env).1 p)
            p ⟨k, PState.suspended, some (newEvent env).1, pr.completion⟩) := by
  refine ⟨fun _ f u n env h => rinv_runFuel f u n env h, ?_, ?_, ?_⟩
  · intro _ env r hd t hw
    simp only [releaseR]
    rw [hw]
  · intro _ env p pr r k h
    simp only [setupAwait]
    split
    · rename_i hc
      exact absurd hc h
    · rw [resources_setProc, resources_addCallback]
      rfl
  · intro _ env p pr r k h
    simp only [setupAwait]
    split
    · rfl
    · rename_i hc
      exact absurd h hc

/-- Witness for C4: the Resource scenario satisfies the invariant before
and after its run, and releasing the one-slot Resource with a queued
request grants exactly that request. -/
theorem C4_resource_capacity_and_fifo_witness :
    (RInv bcsEnv ∧ RInv bcsRun) ∧
    ((getR envOneResource 0).waitQueue = [0] ∧
      releaseR envOneResource 0
        = trigger (setR envOneResource 0 ⟨1, 1, []⟩) 0 (Outcome.ok Value.unit)) :=
  ⟨⟨by decide, C4_resource_capacity_and_fifo.1 RCode bcsResume none 100 bcsEnv (by decide)⟩,
   ⟨by decide, C4_resource_capacity_and_fifo.2.1 Unit envOneResource 0 0 [] (by decide)⟩⟩

/-- C5: triggering a non-pending Event errors (so a second `trigger` on
the same Event always fails); registering a callback on a not-yet-
processed Event appends it, so registration order is list order;
processing a triggered Event first marks it processed and then resumes
every registered callback exactly once, in registration order, with the
fixed outcome; and processing a non-triggered Event (pending, or already
processed) errors, so callbacks never run before the trigger and never a
second time. -/
theorem C5_event_exactly_once :
    (∀ (Code : Type) (env : Env Code) (e : Nat) (out : Outcome),
        ¬ (getE env e).state = EState.pending →
        trigger env e out = { env with err := true }) ∧
    (∀ (Code : Type) (env : Env Code) (e : Nat) (out out2 : Outcome),
        e < env.events.length → (getE env e).state = EState.pending →
        trigger (trigger env e out) e out2 = { trigger env e out with err := true }) ∧
    (∀ (Code : Type) (env : Env Code) (e p : Nat),
        ¬ (getE env e).state = EState.processed →
        addCallback env e p
          = setE env e { getE env e with callbacks := (getE env e).callbacks ++ [p] }) ∧
    (∀ (Code : Type) (f : Code → Nat → Outcome → StepRes Code) (env : Env Code)
        (e : Nat), (getE env e).state = EState.triggered →
        (getE env e).callbacks ≠ [] →
        processEvent f env e
          = (getE env e).callbacks.foldl
              (fun acc p =>
                resumeProc f acc p ((getE env e).outcome.getD (Outcome.ok Value.unit)))
              (setE env e { getE env e with state := EState.processed })) ∧
    (∀ (Code : Type) (f : Code → Nat → Outcome → StepRes Code) (env : Env Code)
        (e : Nat), ¬ (getE env e).state = EState.triggered →
        processEvent f env e = { env with err := true }) :=
  ⟨fun _ _ _ out h => trigger_err_of_not_pending h out,
   fun _ _ _ out out2 h hp => trigger_twice_err h hp out out2,
   fun _ _ _ _ h => addCallback_eq_of_not_processed h,
   fun _ _ _ _ ht hc => processEvent_foldl ht hc,
   fun _ _ _ _ h => processEvent_err_of_not_triggered h⟩

/-- Witness for C5: concrete one-Event Environments exercising every
part — a second trigger fails, registration appends, processing resumes
the registered subscriber once, and processing a pending Event errors. -/
theorem C5_event_exactly_once_witness :
    (trigger envOneTriggered 0 (Outcome.ok Value.unit)
      = { envOneTriggered with err := true }) ∧
    (trigger (trigger envOnePending 0 (Outcome.ok Value.unit)) 0 (Outcome.ok Value.unit)
      = { trigger envOnePending 0 (Outcome.ok Value.unit) with err := true }) ∧
    (addCallback envOnePending 0 7
      = setE envOnePending 0 ⟨EState.pending, none, [7]⟩) ∧
    (processEvent unitResume envOneTriggered 0
      = [0].foldl
          (fun acc p => resumeProc unitResume acc p (Outcome.ok Value.unit))
          (setE envOneTriggered 0
            ⟨EState.processed, some (Outcome.ok Value.unit), [0]⟩)) ∧
    (processEvent unitResume envOnePending 0 = { envOnePending with err := true }) :=
  ⟨C5_event_exactly_once.1 Unit envOneTriggered 0 (Outcome.ok Value.unit) (by decide),
   C5_event_exactly_once.2.1 Unit envOnePending 0 (Outcome.ok Value.unit)
     (Outcome.ok Value.unit) (by decide) (by decide),
   C5_event_exactly_once.2.2.1 Unit envOnePending 0 7 (by decide),
   C5_event_exactly_once.2.2.2.1 Unit unitResume envOneTriggered 0 (by decide) (by decide),
   C5_event_exactly_once.2.2.2.2 Unit unitResume envOnePending 0 (by decide)⟩

/-- C6: delivering an interrupt to a Process suspended on Event `e`
erases its subscription from `e` and resumes it with the interrupted
outcome instead of the outcome of `e`; in the notebook scenario the
originally awaited charge-completion Event (Event 2) still triggers and
is processed at its own time with nobody subscribed, while the
interrupted Car is already driving at 3 and only resumes at 5 from its
own new Timeout. -/
theorem C6_interrupt_revokes_subscription :
    (∀ (Code : Type) (f : Code → Nat → Outcome → StepRes Code) (env : Env Code)
        (p : Nat) (pr : Proc Code) (e : Nat) (c : Option Value),
        getProc env p = some pr → pr.waiting = some e →
        deliverInterrupt f env p c
          = resumeProc f
              (setE env e
                { getE env e with callbacks := (getE env e).callbacks.erase p })
              p (Outcome.interrupted c)) ∧
    getE interruptRun 2 = ⟨EState.processed, some (Outcome.ok Value.unit), []⟩ ∧
    (3, Label.drive) ∈ interruptRun.trace ∧
    (5, Label.parkCharge) ∈ interruptRun.trace := by
  refine ⟨?_, by decide, by decide, by decide⟩
  intro _ f env p pr e c h1 h2
  unfold deliverInterrupt
  rw [h1]
  dsimp only
  rw [h2]

/-- Witness for C6: interrupt delivery on a one-Process Environment. -/
theorem C6_interrupt_revokes_subscription_witness :
    deliverInterrupt unitResume envOneSuspended 0 none
      = resumeProc unitResume
          (setE envOneSuspended 0
            { getE envOneSuspended 0 with
              callbacks := (getE envOneSuspended 0).callbacks.erase 0 })
          0 (Outcome.interrupted none) :=
  C6_interrupt_revokes_subscription.1 Unit unitResume envOneSuspended 0
    ⟨(), PState.suspended, some 0, 0⟩ 0 none (by decide) (by decide)

/-- C7: registering a Process runs none of its logic at creation — the
trace, the clock and every existing Process are untouched; the new
Process is stored not started with the given logic, and exactly one queue
entry is added, scheduling its first step at the current time; in the
basic scenario the first step is then observed at instant 0. -/
theorem C7_process_creation_is_lazy :
    (∀ (Code : Type) (env : Env Code) (c : Code),
        (envProcess env c).2.trace = env.trace ∧
        (envProcess env c).2.now = env.now ∧
        (envProcess env c).2.procs
          = env.procs ++ [⟨c, PState.notStarted, none, env.events.length⟩] ∧
        (envProcess env c).2.queue
          = env.queue ++ [⟨env.now, 1, env.seqc, Callback.startProc env.procs.length⟩]) ∧
    basicRun.trace.head? = some (0, Label.park) := by
  refine ⟨fun _ env c => ⟨rfl, rfl, rfl, ?_⟩, by decide⟩
  simp [envProcess, newEvent, schedule]

/-- C8: a fresh Environment starts at time 0, executing any single
callback never changes the clock (only the run loop advances it), and a
run from any state whose queue is consistent with the clock keeps that
consistency and never decreases the clock. -/
theorem C8_clock_monotone :
    ((emptyEnv : Env PCode).now = 0) ∧
    (∀ (Code : Type) (f : Code → Nat → Outcome → StepRes Code) (env : Env Code)
        (cb : Callback), (exec f env cb).now = env.now) ∧
    (∀ (Code : Type) (f : Code → Nat → Outcome → StepRes Code) (u : Option Nat)
        (n : Nat) (env : Env Code), QInv env →
        QInv (runFuel f n env u) ∧ env.now ≤ (runFuel f n env u).now) :=
  ⟨rfl, fun _ f env cb => (stepPres_exec f env cb).1,
   fun _ f u n env h => qinv_now_runFuel f u n env h⟩

/-- Witness for C8: the basic scenario satisfies the queue invariant and
its bounded run only moves the clock forward. -/
theorem C8_clock_monotone_witness :
    QInv basicEnv ∧
    (QInv (runFuel carResume 100 basicEnv (some 15)) ∧
      basicEnv.now ≤ (runFuel carResume 100 basicEnv (some 15)).now) :=
  ⟨by decide, C8_clock_monotone.2.2 PCode carResume (some 15) 100 basicEnv (by decide)⟩

/-- C9: the class-based Car that waits on a `charge(5)` child Process and
the plain car that waits on `timeout(5)` directly observe identical
state-change instants 0, 5, 7, 12, 14 under `run(until=15)`. -/
theorem C9_child_process_equals_timeout :
    waitRun.trace.map Prod.fst = [0, 5, 7, 12, 14] ∧
    basicRun.trace.map Prod.fst = [0, 5, 7, 12, 14] ∧
    waitRun.trace.map Prod.fst = basicRun.trace.map Prod.fst :=
  ⟨by decide, by decide, by decide⟩

/-- C10: `interrupt()` with the cause omitted defaults the cause to
none; on a suspended target the call schedules the interrupted
resumption at the instant of the call (delay 0) with the urgent
priority 0; and in the notebook scenario the Car catches the resulting
interrupt at instant 3, the time of the driver's call. -/
theorem C10_interrupt_default_cause :
    (∀ (Code : Type) (env : Env Code) (t : Nat),
        interruptNoCause env t = interruptProc env t none) ∧
    (∀ (Code : Type) (env : Env Code) (t : Nat) (pr : Proc Code) (e : Nat)
        (c : Option Value),
        getProc env t = some pr → pr.pstate = PState.suspended →
        pr.waiting = some e →
        interruptProc env t c = schedule env 0 0 (Callback.deliverInterrupt t c)) ∧
    (3, Label.wasInterrupted) ∈ interruptRun.trace := by
  refine ⟨fun _ env t => rfl, ?_, by decide⟩
  intro _ env t pr e c h1 h2 h3
  unfold interruptProc
  rw [h1]
  dsimp only
  rw [h2, h3]

/-- Witness for C10: interrupting the suspended Process of a one-Process
Environment schedules the urgent same-instant delivery. -/
theorem C10_interrupt_default_cause_witness :
    interruptProc envOneSuspended 0 none
      = schedule envOneSuspended 0 0 (Callback.deliverInterrupt 0 none) :=
  C10_interrupt_default_cause.2.1 Unit envOneSuspended 0
    ⟨(), PState.suspended, some 0, 0⟩ 0 none (by decide) (by decide) (by decide)

end SimPy
